import Mathlib

/-!
Verification development for the analytics/modeling library of the
Advanced-Analytics-Dashboard repository.

The repository ships the UI layer (`src/analytics-dashboard/src/App.jsx`)
which calls into an analysis library (`src/lib/data.js`, `src/lib/models.js`);
the library files themselves are not present in the source tree, so the
library functions are modelled from the specification (each such definition
says so in its doc comment), while the control flow of `App.jsx`
(model selection, the `trainModel` handler) is embedded from the source.

Numbers are modelled as exact rationals (`ℚ`); square roots (standard
deviation, RMSE, Pearson denominators) land in `ℝ` via `Real.sqrt`.
-/

namespace Dashboard

/-- A field value of a record: numeric, categorical (string), or null/missing. -/
inductive Value where
  | num (q : ℚ)
  | str (s : String)
  | null
deriving DecidableEq, Repr

/-- A record is a mapping from field names to values (association list). -/
abbrev Record := List (String × Value)

/-- The numeric value of a field of a record, if the field is present and numeric. -/
def numValue (r : Record) (f : String) : Option ℚ :=
  match r.lookup f with
  | some (Value.num q) => some q
  | _ => none

/-- The defined numeric values of a field across a record collection. -/
def definedNums (records : List Record) (f : String) : List ℚ :=
  records.filterMap (fun r => numValue r f)

/-- Arithmetic mean of a list of rationals (0 on the empty list, by `q / 0 = 0`). -/
def listMean (xs : List ℚ) : ℚ := xs.sum / xs.length

/-- Population variance: mean of squared deviations from the mean. -/
def listVariance (xs : List ℚ) : ℚ :=
  ((xs.map (fun x => (x - listMean xs) ^ 2)).sum) / xs.length

/-- Values sorted ascending. -/
def sortVals (xs : List ℚ) : List ℚ := xs.insertionSort (· ≤ ·)

/-- Median of a list: middle element of the sorted list, or the average of the
two middle elements when the length is even. -/
def listMedian (xs : List ℚ) : ℚ :=
  if xs.length % 2 = 1 then (sortVals xs).getD (xs.length / 2) 0
  else ((sortVals xs).getD (xs.length / 2 - 1) 0
        + (sortVals xs).getD (xs.length / 2) 0) / 2

/-- Smallest value: first element of the sorted list. -/
def listMin (xs : List ℚ) : ℚ := (sortVals xs).getD 0 0

/-- Largest value: last element of the sorted list. -/
def listMax (xs : List ℚ) : ℚ := (sortVals xs).getD (xs.length - 1) 0

/-- The higher moments of a statistics summary, defined only when at least one
value is present. -/
structure StatsCore where
  sum : ℚ
  mean : ℚ
  median : ℚ
  min : ℚ
  max : ℚ
  variance : ℚ
deriving DecidableEq, Repr

/-- Per-field statistics summary: a count, and the higher moments, which are
`none` (undefined) when the count is 0. -/
structure StatisticsSummary where
  count : Nat
  core : Option StatsCore
deriving DecidableEq, Repr

/-- Modelled from the spec: `summarize` / `calculateStatistics` of the missing
`src/lib/data.js`. Filters to records with a defined numeric value for `field`;
returns a summary with count 0 and undefined higher moments if none remain;
otherwise computes count, sum, mean, median, min, max and the population
variance (dividing by count, not count - 1). -/
def calculateStatistics (records : List Record) (f : String) : StatisticsSummary :=
  let xs := definedNums records f
  if xs.isEmpty then ⟨0, none⟩
  else ⟨xs.length,
        some ⟨xs.sum, listMean xs, listMedian xs, listMin xs, listMax xs, listVariance xs⟩⟩

/-- Standard deviation of a summary: square root of the population variance,
0 when the summary is empty. -/
noncomputable def StatisticsSummary.stdDev (s : StatisticsSummary) : ℝ :=
  match s.core with
  | some c => Real.sqrt (c.variance : ℝ)
  | none => 0

/-- The pairs of numeric values for two fields over the records on which both
fields are defined numerics. -/
def pairedVals (records : List Record) (fa fb : String) : List (ℚ × ℚ) :=
  records.filterMap (fun r =>
    match numValue r fa, numValue r fb with
    | some a, some b => some (a, b)
    | _, _ => none)

/-- Population covariance of a list of pairs. -/
def listCov (ps : List (ℚ × ℚ)) : ℚ :=
  ((ps.map (fun p => (p.1 - listMean (ps.map Prod.fst))
      * (p.2 - listMean (ps.map Prod.snd)))).sum) / ps.length

/-- Modelled from the spec: `calculateCorrelation` of the missing
`src/lib/data.js`. Pearson correlation computed pairwise only over records
where both fields are defined numerics; `none` (undefined) when fewer than 2
such records exist or either field has zero variance over that subset. -/
noncomputable def calculateCorrelation (records : List Record) (fa fb : String) : Option ℝ :=
  if (pairedVals records fa fb).length < 2 then none
  else if listVariance ((pairedVals records fa fb).map Prod.fst) = 0
      ∨ listVariance ((pairedVals records fa fb).map Prod.snd) = 0 then none
  else some ((listCov (pairedVals records fa fb) : ℝ)
    / (Real.sqrt ((listVariance ((pairedVals records fa fb).map Prod.fst) : ℚ) : ℝ)
       * Real.sqrt ((listVariance ((pairedVals records fa fb).map Prod.snd) : ℚ) : ℝ)))

/-- The group key of a record for a group field: its value when present and
non-null, `none` when the field is missing or null. -/
def keyOf (r : Record) (f : String) : Option Value :=
  match r.lookup f with
  | some Value.null => none
  | some v => some v
  | none => none

/-- The distinct group keys appearing in a collection, in first-appearance order. -/
def groupKeys (records : List Record) (gf : String) : List Value :=
  (records.filterMap (fun r => keyOf r gf)).dedup

/-- The records of a collection whose group key equals `k`. -/
def groupRecords (records : List Record) (gf : String) (k : Value) : List Record :=
  records.filter (fun r => keyOf r gf = some k)

/-- Apply a reducer by name to a list of values; `none` for an unsupported name. -/
def applyReducer (red : String) (xs : List ℚ) : Option ℚ :=
  if red = "sum" then some xs.sum
  else if red = "mean" then some (listMean xs)
  else if red = "count" then some (xs.length : ℚ)
  else none

/-- Descending order on (key, aggregate) pairs by aggregate value. -/
def aggGE (a b : Value × ℚ) : Prop := b.2 ≤ a.2

instance : DecidableRel aggGE := fun a b => inferInstanceAs (Decidable (b.2 ≤ a.2))

instance : IsTotal (Value × ℚ) aggGE := ⟨fun a b => le_total b.2 a.2⟩

instance : IsTrans (Value × ℚ) aggGE := ⟨fun _ _ _ h h2 => le_trans h2 h⟩

/-- Modelled from the spec: `groupBy` of the missing `src/lib/data.js`.
Partitions the records by their (defined) value of `groupField` — records with
a missing group field fall into no group — reduces the defined numeric values
of `valueField` within each group, and returns the (key, aggregate) pairs
sorted descending by aggregate value. An unsupported reducer name fails with an
"unsupported reducer" error. -/
def groupBy (records : List Record) (gf vf : String) (red : String) :
    Except String (List (Value × ℚ)) :=
  if applyReducer red [] = none then Except.error "unsupported reducer"
  else
    let base := (groupKeys records gf).map (fun k =>
      (k, (applyReducer red (definedNums (groupRecords records gf k) vf)).getD 0))
    Except.ok (base.insertionSort aggGE)

/-- The (group key, value) pairs of the records that have both a defined group
key and a defined numeric value (used to relate `groupBy` to plain sums). -/
def kvPairs (records : List Record) (gf vf : String) : List (Value × ℚ) :=
  records.filterMap (fun r =>
    match keyOf r gf, numValue r vf with
    | some k, some v => some (k, v)
    | _, _ => none)

/-- First quartile: element at index `⌊n/4⌋` of the sorted values. -/
def q1Of (xs : List ℚ) : ℚ := (sortVals xs).getD (xs.length / 4) 0

/-- Third quartile: element at index `⌊3n/4⌋` of the sorted values. -/
def q3Of (xs : List ℚ) : ℚ := (sortVals xs).getD (3 * xs.length / 4) 0

/-- Lower outlier fence: `Q1 - 1.5 * IQR`. -/
def lowFence (xs : List ℚ) : ℚ := q1Of xs - 3 / 2 * (q3Of xs - q1Of xs)

/-- Upper outlier fence: `Q3 + 1.5 * IQR`. -/
def highFence (xs : List ℚ) : ℚ := q3Of xs + 3 / 2 * (q3Of xs - q1Of xs)

/-- Modelled from the spec: `detectOutliers` of the missing `src/lib/data.js`.
Computes Q1, Q3 and the IQR over the defined values of `field` and returns the
records whose value falls outside `[Q1 - 1.5*IQR, Q3 + 1.5*IQR]`; records with
a missing `field` are never flagged. -/
def detectOutliers (records : List Record) (f : String) : List Record :=
  if (definedNums records f).isEmpty then []
  else records.filter (fun r =>
    match numValue r f with
    | some v => decide (v < lowFence (definedNums records f)
                        ∨ highFence (definedNums records f) < v)
    | none => false)

/-- Whether a record's cell for a field is missing: the field is absent or null
(the embedding of JS `null` / `undefined` / `NaN` cells). -/
def isMissing (r : Record) (f : String) : Bool :=
  match r.lookup f with
  | some (Value.num _) => false
  | some (Value.str _) => false
  | _ => true

/-- Number of missing cells across all records over the tracked fields. -/
def missingCount (records : List Record) (fields : List String) : Nat :=
  (records.map (fun r => (fields.filter (fun f => isMissing r f)).length)).sum

/-- Number of records that are exact duplicates of an earlier record
(full-field equality). -/
def duplicateCount : List Record → List Record → Nat
  | _, [] => 0
  | seen, r :: rs => (if r ∈ seen then 1 else 0) + duplicateCount (r :: seen) rs

/-- Data-quality report: row count, missing/duplicate percentages and the
overall quality score. -/
structure DataQualityReport where
  totalRows : Nat
  missingPercentage : ℚ
  duplicatePercentage : ℚ
  qualityScore : ℚ
deriving DecidableEq, Repr

/-- Modelled from the spec: `calculateDataQuality` of the missing
`src/lib/data.js`. Missing percentage = missing cells / (record count × tracked
field count) × 100; duplicate percentage = duplicate records / record count ×
100; quality score = 100 − missingPercentage − duplicatePercentage clamped to
[0, 100] (the source's penalty weights are undisclosed; both are taken as 1). -/
def calculateDataQuality (records : List Record) (fields : List String) :
    DataQualityReport :=
  let n := records.length
  let mP : ℚ := (missingCount records fields : ℚ) / ((n : ℚ) * fields.length) * 100
  let dP : ℚ := (duplicateCount [] records : ℚ) / (n : ℚ) * 100
  ⟨n, mP, dP, max 0 (min 100 (100 - mP - dP))⟩

/-- Dot product of two equal-length vectors. -/
def dot (a b : List ℚ) : ℚ := (a.zipWith (· * ·) b).sum

/-- Regression metrics. The squared quantities are exact rationals; RMSE is the
derived square root, see `RegMetrics.rmse`. -/
structure RegMetrics where
  r2 : ℚ
  mse : ℚ
  mae : ℚ
deriving DecidableEq, Repr

/-- RMSE: square root of the mean squared error. -/
noncomputable def RegMetrics.rmse (e : RegMetrics) : ℝ := Real.sqrt (e.mse : ℝ)

/-- Residual sum of squares of an (actual, predicted) pair. -/
def ssRes (actual predicted : List ℚ) : ℚ :=
  ((actual.zipWith (fun a p => (a - p) ^ 2) predicted)).sum

/-- Total sum of squares of the actual values about their mean. -/
def ssTot (actual : List ℚ) : ℚ :=
  ((actual.map (fun a => (a - listMean actual) ^ 2))).sum

/-- The R² score, edge-cased to 1 when the total sum of squares is 0 (constant
actual values), so that it never divides by zero. -/
def r2Score (actual predicted : List ℚ) : ℚ :=
  if ssTot actual = 0 then 1 else 1 - ssRes actual predicted / ssTot actual

/-- Modelled from the spec: `evaluateRegression` of the missing
`src/lib/models.js`. Fails with a "length mismatch" error when `actual` and
`predicted` differ in length; otherwise returns R² (edge-cased at constant
actuals), the mean squared error (whose root is the RMSE) and the mean
absolute error. -/
def evaluateRegression (actual predicted : List ℚ) : Except String RegMetrics :=
  if actual.length ≠ predicted.length then Except.error "length mismatch"
  else
    let n : ℚ := actual.length
    Except.ok ⟨r2Score actual predicted,
               ssRes actual predicted / n,
               ((actual.zipWith (fun a p => |a - p|) predicted)).sum / n⟩

/-- Gaussian elimination with partial pivoting on an augmented matrix
(`n` variables, rows of length `n + 1`): pick a row with a nonzero leading
coefficient, eliminate the leading column from the remaining rows, solve the
reduced system, back-substitute. `none` when no pivot exists (singular system). -/
def gaussSolve : Nat → List (List ℚ) → Option (List ℚ)
  | 0, _ => some []
  | n + 1, rows =>
    match rows.find? (fun r => decide (r.headD 0 ≠ 0)) with
    | none => none
    | some p =>
      let reduced := (rows.erase p).map (fun r =>
        (r.tail).zipWith (fun x px => x - r.headD 0 / p.headD 0 * px) p.tail)
      match gaussSolve n reduced with
      | none => none
      | some xs => some ((p.getLastD 0 - dot (p.tail.dropLast) xs) / p.headD 0 :: xs)

/-- Learned parameters of a fitted linear regression. -/
structure LinModel where
  intercept : ℚ
  coefficients : List ℚ
deriving DecidableEq, Repr

/-- Rows of the design matrix with the implicit leading intercept column. -/
def withIntercept (X : List (List ℚ)) : List (List ℚ) := X.map (fun row => 1 :: row)

/-- Modelled from the spec: `LinearRegression.fit` of the missing
`src/lib/models.js`. Ordinary least squares by the closed-form normal-equation
solve: with `M` the design matrix extended by an intercept column, solves
`Mᵀ M β = Mᵀ y` by Gaussian elimination; reports a "singular matrix" failure
when the system has no pivot (rank-deficient design), rather than returning
NaNs. -/
def linearFit (X : List (List ℚ)) (y : List ℚ) : Except String LinModel :=
  let M := withIntercept X
  let Mt := M.transpose
  let A := Mt.map (fun ri => Mt.map (fun rj => dot ri rj))
  let b := Mt.map (fun ri => dot ri y)
  let aug := A.zipWith (fun row bi => row ++ [bi]) b
  match gaussSolve Mt.length aug with
  | some (c0 :: cs) => Except.ok ⟨c0, cs⟩
  | _ => Except.error "singular matrix"

/-- Modelled from the spec: `LinearRegression.predict` of the missing
`src/lib/models.js`. Returns `intercept + X · coefficients` row-wise. -/
def LinModel.predict (m : LinModel) (X : List (List ℚ)) : List ℚ :=
  X.map (fun row => m.intercept + dot row m.coefficients)

/-- Cross-validation result: per-fold scores with their mean and variance
(the standard deviation is the square root of the variance). -/
structure CVResult where
  perFold : List ℚ
  mean : ℚ
  variance : ℚ
deriving DecidableEq, Repr

/-- The row indices held out by fold `i` of `k` over `n` rows: contiguous
blocks of `⌊n/k⌋` rows, the last fold absorbing the remainder. -/
def foldIdx (n k i : Nat) : List Nat :=
  List.range' (i * (n / k))
    ((if i + 1 = k then n else (i + 1) * (n / k)) - i * (n / k))

/-- The elements of `l` at the positions listed in `idxs`. -/
def selectIdx (l : List ℚ) (idxs : List Nat) : List ℚ :=
  idxs.filterMap (fun j => l.get? j)

/-- The rows of `X` at the positions listed in `idxs`. -/
def selectRows (X : List (List ℚ)) (idxs : List Nat) : List (List ℚ) :=
  idxs.filterMap (fun j => X.get? j)

/-- The row indices a fold trains on: all rows not held out by fold `i`
(the remaining `k - 1` folds). -/
def cvTrainIdx (n k i : Nat) : List Nat :=
  (List.range n).filter (fun j => decide (j ∉ foldIdx n k i))

/-- The R² score of fold `i`: a fresh model is produced by the factory `fit`
from the training rows and scored on the held-out rows. -/
def cvFoldScore (fit : List (List ℚ) → List ℚ → (List ℚ → ℚ))
    (X : List (List ℚ)) (y : List ℚ) (k i : Nat) : ℚ :=
  r2Score (selectIdx y (foldIdx X.length k i))
    ((selectRows X (foldIdx X.length k i)).map
      (fit (selectRows X (cvTrainIdx X.length k i))
           (selectIdx y (cvTrainIdx X.length k i))))

/-- Modelled from the spec: `crossValidate` of the missing
`src/lib/models.js`. Fails when `k < 2` or `k` exceeds the row count;
otherwise partitions the row indices into `k` contiguous folds
(deterministic, no shuffling), and for each fold trains a fresh model through
the supplied factory `fit` on the remaining `k - 1` folds and scores R² on the
held-out fold; aggregates the per-fold scores into their mean and variance. -/
def crossValidate (fit : List (List ℚ) → List ℚ → (List ℚ → ℚ))
    (X : List (List ℚ)) (y : List ℚ) (k : Nat) : Except String CVResult :=
  if k < 2 then Except.error "k must be at least 2"
  else if X.length < k then Except.error "k exceeds row count"
  else Except.ok ⟨(List.range k).map (fun i => cvFoldScore fit X y k i),
    listMean ((List.range k).map (fun i => cvFoldScore fit X y k i)),
    listVariance ((List.range k).map (fun i => cvFoldScore fit X y k i))⟩

/-- The model kinds the UI can construct (`App.jsx`). -/
inductive ModelChoice where
  | linear
  | tree
deriving DecidableEq, Repr

/-- The model-construction switch of `trainModel` in `App.jsx` (lines 83-92):
`'linear'` and `'tree'` select their models, and the `default` branch
constructs a `LinearRegression`. -/
def selectModel (s : String) : ModelChoice :=
  if s = "linear" then ModelChoice.linear
  else if s = "tree" then ModelChoice.tree
  else ModelChoice.linear

/-- What the spec's error-handling design prescribes for model-kind selection:
an unsupported model kind fails loudly with an `InvalidParameter` error
(spec §7), never substituting a default. Stated for comparison with
`selectModel`, the source's actual behavior. -/
def selectModelSpec (s : String) : Except String ModelChoice :=
  if s = "linear" then Except.ok ModelChoice.linear
  else if s = "tree" then Except.ok ModelChoice.tree
  else Except.error "InvalidParameter: unsupported model kind"

/-- The React state of `App` that `trainModel` can touch, with the console
log made explicit (`ρ` is the type of the published model results). -/
structure AppState (ρ : Type) where
  activeTab : String
  selectedModel : String
  modelResults : Option ρ
  isTraining : Bool
  consoleLog : List String

/-- The `trainModel` handler of `App.jsx` (lines 74-123) as a state
transformer: sets `isTraining`, runs the training pipeline (fit, predict,
evaluate, cross-validate, feature importance — abstracted as the fallible
computation `steps`), publishes the results on success; on any thrown error it
only logs `console.error('Model training failed:', error)` and publishes
nothing; the `finally` block resets `isTraining`. -/
def trainModel {ρ : Type} (steps : Except String ρ) (s : AppState ρ) : AppState ρ :=
  let s1 := { s with isTraining := true }
  match steps with
  | Except.ok r => { s1 with modelResults := some r, isTraining := false }
  | Except.error e =>
      { s1 with consoleLog := s1.consoleLog ++ ["Model training failed: " ++ e],
                isTraining := false }

/-! ## Shared concrete data for witnesses -/

/-- The three-record example collection of spec §8. -/
def exRecs : List Record :=
  [[("revenue", Value.num 100), ("customers", Value.num 10)],
   [("revenue", Value.num 200), ("customers", Value.num 20)],
   [("revenue", Value.null), ("customers", Value.num 30)]]

/-- A collection whose `revenue` field has zero variance. -/
def constRecs : List Record :=
  [[("revenue", Value.num 5)], [("revenue", Value.num 5)]]

/-- A collection with two groups and one record lacking the group field. -/
def grpRecs : List Record :=
  [[("category", Value.str "A"), ("revenue", Value.num 10)],
   [("category", Value.str "B"), ("revenue", Value.num 5)],
   [("category", Value.str "A"), ("revenue", Value.num 7)],
   [("revenue", Value.num 99)]]

/-- A clean two-record collection: no missing cells, no duplicate records. -/
def cleanRecs : List Record :=
  [[("revenue", Value.num 100), ("customers", Value.num 10)],
   [("revenue", Value.num 200), ("customers", Value.num 20)]]

/-- Feature matrix generated exactly from two feature columns. -/
def linX : List (List ℚ) := [[0, 0], [1, 0], [0, 1], [1, 1], [2, 1]]

/-- Targets generated exactly from `y = 2*x1 + 3*x2 + 1` over `linX`. -/
def linY : List ℚ := [1, 3, 4, 6, 8]

/-! ## Helper lemmas about sorting and statistics -/

lemma sortVals_sorted (xs : List ℚ) : (sortVals xs).Sorted (· ≤ ·) :=
  List.sorted_insertionSort _ xs

lemma sortVals_perm (xs : List ℚ) : List.Perm (sortVals xs) xs :=
  List.perm_insertionSort _ xs

lemma sortVals_length (xs : List ℚ) : (sortVals xs).length = xs.length :=
  (sortVals_perm xs).length_eq

lemma sorted_getD_mono (xs : List ℚ) {i j : Nat} (hij : i ≤ j)
    (hj : j < (sortVals xs).length) :
    (sortVals xs).getD i 0 ≤ (sortVals xs).getD j 0 := by
  have hi : i < (sortVals xs).length := lt_of_le_of_lt hij hj
  rw [List.getD_eq_get _ _ hi, List.getD_eq_get _ _ hj]
  exact (sortVals_sorted xs).rel_get_of_le (a := ⟨i, hi⟩) (b := ⟨j, hj⟩) hij

lemma stdDev_nonneg (s : StatisticsSummary) : 0 ≤ s.stdDev := by
  obtain ⟨count, core⟩ := s
  cases core with
  | none => exact le_refl 0
  | some c => exact Real.sqrt_nonneg _

lemma listMin_le_listMedian (xs : List ℚ) (h : xs ≠ []) :
    listMin xs ≤ listMedian xs ∧ listMedian xs ≤ listMax xs := by
  have hn : 0 < xs.length := List.length_pos.mpr h
  have hlen := sortVals_length xs
  unfold listMin listMedian listMax
  by_cases hpar : xs.length % 2 = 1
  · rw [if_pos hpar]
    constructor
    · exact sorted_getD_mono xs (Nat.zero_le _)
        (by rw [hlen]; exact Nat.div_lt_self hn one_lt_two)
    · exact sorted_getD_mono xs (by omega)
        (by rw [hlen]; omega)
  · rw [if_neg hpar]
    have h2 : 2 ≤ xs.length := by omega
    have hhalf : xs.length / 2 < xs.length := Nat.div_lt_self hn one_lt_two
    have ha : (sortVals xs).getD 0 0 ≤ (sortVals xs).getD (xs.length / 2 - 1) 0 :=
      sorted_getD_mono xs (Nat.zero_le _) (by rw [hlen]; omega)
    have hb : (sortVals xs).getD (xs.length / 2 - 1) 0
        ≤ (sortVals xs).getD (xs.length / 2) 0 :=
      sorted_getD_mono xs (by omega) (by rw [hlen]; omega)
    have hc : (sortVals xs).getD (xs.length / 2) 0
        ≤ (sortVals xs).getD (xs.length - 1) 0 :=
      sorted_getD_mono xs (by omega) (by rw [hlen]; omega)
    constructor <;> [linarith; linarith]

lemma pairedVals_swap (records : List Record) (fa fb : String) :
    pairedVals records fb fa = (pairedVals records fa fb).map Prod.swap := by
  induction records with
  | nil => rfl
  | cons r rs ih =>
    unfold pairedVals at ih ⊢
    cases ha : numValue r fa <;> cases hb : numValue r fb <;>
      simp [List.filterMap_cons, ha, hb, ih, Prod.swap]

lemma pairedVals_self (records : List Record) (f : String) :
    pairedVals records f f = (definedNums records f).map (fun x => (x, x)) := by
  induction records with
  | nil => rfl
  | cons r rs ih =>
    unfold pairedVals definedNums at ih ⊢
    cases ha : numValue r f <;> simp [List.filterMap_cons, ha, ih]

lemma listCov_map_swap (ps : List (ℚ × ℚ)) :
    listCov (ps.map Prod.swap) = listCov ps := by
  unfold listCov
  rw [List.map_map, List.map_map, List.map_map, List.length_map]
  have h1 : (Prod.fst ∘ Prod.swap : ℚ × ℚ → ℚ) = Prod.snd := rfl
  have h2 : (Prod.snd ∘ Prod.swap : ℚ × ℚ → ℚ) = Prod.fst := rfl
  rw [h1, h2]
  congr 1
  congr 1
  apply List.map_congr_left
  intro p _
  simp only [Function.comp_apply, Prod.fst_swap, Prod.snd_swap]
  ring

lemma listCov_diag (xs : List ℚ) :
    listCov (xs.map (fun x => (x, x))) = listVariance xs := by
  unfold listCov listVariance
  rw [List.map_map, List.map_map, List.map_map, List.length_map]
  have h1 : (Prod.fst ∘ (fun x : ℚ => (x, x))) = id := rfl
  have h2 : (Prod.snd ∘ (fun x : ℚ => (x, x))) = id := rfl
  rw [h1, h2, List.map_id]
  congr 1
  congr 1
  apply List.map_congr_left
  intro x _
  simp only [Function.comp_apply]
  ring

lemma listVariance_nonneg (xs : List ℚ) : 0 ≤ listVariance xs := by
  unfold listVariance
  apply div_nonneg
  · apply List.sum_nonneg
    intro x hx
    obtain ⟨y, -, rfl⟩ := List.mem_map.mp hx
    positivity
  · positivity

lemma listVariance_eq_zero_of_short (xs : List ℚ) (h : xs.length < 2) :
    listVariance xs = 0 := by
  match xs with
  | [] => simp [listVariance]
  | [x] =>
    unfold listVariance listMean
    norm_num
  | x :: y :: t =>
    exact absurd h (by simp)

lemma sum_sq_eq_zero {l : List ℚ} (h0 : ∀ x ∈ l, 0 ≤ x) (h : l.sum = 0) :
    ∀ x ∈ l, x = 0 := by
  induction l with
  | nil => simp
  | cons a t ih =>
    have hta : 0 ≤ a := h0 a (by simp)
    have htt : 0 ≤ t.sum := List.sum_nonneg (fun x hx => h0 x (by simp [hx]))
    rw [List.sum_cons] at h
    have ht : t.sum = 0 := by linarith
    intro x hx
    rcases List.mem_cons.mp hx with rfl | hx2
    · linarith
    · exact ih (fun y hy => h0 y (by simp [hy])) ht x hx2

lemma listVariance_zero_all_eq {xs : List ℚ} (h : listVariance xs = 0) :
    ∀ x ∈ xs, x = listMean xs := by
  intro x hx
  have hlen : xs.length ≠ 0 := by
    intro h0
    rw [List.length_eq_zero] at h0
    subst h0
    simp at hx
  have hS : (xs.map (fun y => (y - listMean xs) ^ 2)).sum = 0 := by
    unfold listVariance at h
    rcases div_eq_zero_iff.mp h with hS | hn
    · exact hS
    · exact absurd hn (by exact_mod_cast hlen)
  have hz := sum_sq_eq_zero
    (fun y hy => by
      obtain ⟨z, -, rfl⟩ := List.mem_map.mp hy
      positivity)
    hS ((x - listMean xs) ^ 2) (List.mem_map_of_mem _ hx)
  have h2 : x - listMean xs = 0 := by
    nlinarith [sq_nonneg (x - listMean xs)]
  linarith

lemma mem_definedNums {records : List Record} {f : String} {r : Record} {v : ℚ}
    (hr : r ∈ records) (hv : numValue r f = some v) : v ∈ definedNums records f :=
  List.mem_filterMap.mpr ⟨r, hr, hv⟩

lemma getD_sortVals_of_all_eq {xs : List ℚ} {m : ℚ} (hall : ∀ x ∈ xs, x = m)
    {i : Nat} (hi : i < xs.length) : (sortVals xs).getD i 0 = m := by
  have hi2 : i < (sortVals xs).length := by rw [sortVals_length]; exact hi
  rw [List.getD_eq_get _ _ hi2]
  exact hall _ ((sortVals_perm xs).subset (List.get_mem _ _ _))

lemma sum_filter_add_sum_filter_not (l : List (Value × ℚ)) (p : Value × ℚ → Bool) :
    ((l.filter p).map Prod.snd).sum
      + ((l.filter (fun x => !(p x))).map Prod.snd).sum
      = (l.map Prod.snd).sum := by
  induction l with
  | nil => simp
  | cons a t ih =>
    by_cases ha : p a = true <;> simp [List.filter_cons, ha] <;> linarith

lemma sum_over_keys (ks : List Value) (l : List (Value × ℚ)) (hnd : ks.Nodup)
    (hcov : ∀ p ∈ l, p.1 ∈ ks) :
    (ks.map (fun k => ((l.filter (fun p => decide (p.1 = k))).map Prod.snd).sum)).sum
      = (l.map Prod.snd).sum := by
  induction ks generalizing l with
  | nil =>
    cases l with
    | nil => simp
    | cons p t => exact absurd (hcov p (by simp)) (by simp)
  | cons k ks ih =>
    rw [List.map_cons, List.sum_cons]
    have hnotk : k ∉ ks := (List.nodup_cons.mp hnd).1
    have hnd2 : ks.Nodup := (List.nodup_cons.mp hnd).2
    have hcov2 : ∀ p ∈ l.filter (fun p => !decide (p.1 = k)), p.1 ∈ ks := by
      intro p hp
      have hpl := List.mem_filter.mp hp
      rcases List.mem_cons.mp (hcov p hpl.1) with he | h2
      · exfalso
        have hb := hpl.2
        simp [he] at hb
      · exact h2
    have hfix : ∀ k2 ∈ ks,
        (l.filter (fun p => !decide (p.1 = k))).filter (fun p => decide (p.1 = k2))
          = l.filter (fun p => decide (p.1 = k2)) := by
      intro k2 hk2
      rw [List.filter_filter]
      apply List.filter_congr
      intro p _
      by_cases hpk2 : p.1 = k2
      · have hpk : p.1 ≠ k := by
          rw [hpk2]
          intro he
          exact hnotk (he ▸ hk2)
        simp [hpk2, hpk]
        exact fun he => hnotk (he ▸ hk2)
      · simp [hpk2]
    have hmapeq :
        ks.map (fun k2 => ((l.filter (fun p => decide (p.1 = k2))).map Prod.snd).sum)
          = ks.map (fun k2 =>
              (((l.filter (fun p => !decide (p.1 = k))).filter
                  (fun p => decide (p.1 = k2))).map Prod.snd).sum) := by
      apply List.map_congr_left
      intro k2 hk2
      rw [hfix k2 hk2]
    rw [hmapeq, ih _ hnd2 hcov2]
    exact sum_filter_add_sum_filter_not l (fun p => decide (p.1 = k))

lemma definedNums_groupRecords (records : List Record) (gf vf : String) (k : Value) :
    definedNums (groupRecords records gf k) vf
      = ((kvPairs records gf vf).filter (fun p => decide (p.1 = k))).map Prod.snd := by
  induction records with
  | nil => rfl
  | cons r rs ih =>
    unfold definedNums groupRecords kvPairs at ih ⊢
    cases hk : keyOf r gf with
    | none => simp [List.filter_cons, List.filterMap_cons, hk, ih]
    | some k2 =>
      cases hv : numValue r vf with
      | none =>
        by_cases hkk : k2 = k <;>
          simp [List.filter_cons, List.filterMap_cons, hk, hv, hkk, ih]
      | some v =>
        by_cases hkk : k2 = k <;>
          simp [List.filter_cons, List.filterMap_cons, hk, hv, hkk, ih]

lemma kvPairs_snd (records : List Record) (gf vf : String) :
    (kvPairs records gf vf).map Prod.snd
      = (records.filter (fun r => (keyOf r gf).isSome)).filterMap
          (fun r => numValue r vf) := by
  induction records with
  | nil => rfl
  | cons r rs ih =>
    unfold kvPairs at ih ⊢
    cases hk : keyOf r gf with
    | none => simp [List.filterMap_cons, List.filter_cons, hk, ih]
    | some k2 =>
      cases hv : numValue r vf with
      | none => simp [List.filterMap_cons, List.filter_cons, hk, hv, ih]
      | some v => simp [List.filterMap_cons, List.filter_cons, hk, hv, ih]

lemma foldIdx_start_le_stop {n k i : Nat} (hk : k ≤ n) (hi : i < k) :
    i * (n / k) ≤ (if i + 1 = k then n else (i + 1) * (n / k)) := by
  by_cases h : i + 1 = k
  · rw [if_pos h]
    calc i * (n / k) ≤ k * (n / k) := Nat.mul_le_mul_right _ (le_of_lt hi)
      _ ≤ n := by rw [mul_comm]; exact Nat.div_mul_le_self n k
  · rw [if_neg h]
    exact Nat.mul_le_mul_right _ (by omega)

lemma mem_foldIdx {n k i m : Nat} (hk : k ≤ n) (hi : i < k) :
    m ∈ foldIdx n k i ↔
      i * (n / k) ≤ m ∧ m < (if i + 1 = k then n else (i + 1) * (n / k)) := by
  unfold foldIdx
  rw [List.mem_range'_1]
  have hs := foldIdx_start_le_stop hk hi
  omega

lemma foldIdx_disjoint {n k : Nat} (hk : k ≤ n) {i j : Nat} (hi : i < k)
    (hj : j < k) (hij : i ≠ j) {m : Nat} (hmi : m ∈ foldIdx n k i) :
    m ∉ foldIdx n k j := by
  intro hmj
  rw [mem_foldIdx hk hi] at hmi
  rw [mem_foldIdx hk hj] at hmj
  rcases Nat.lt_or_ge i j with hlt | hge
  · have hne : i + 1 ≠ k := by omega
    rw [if_neg hne] at hmi
    have hmul : (i + 1) * (n / k) ≤ j * (n / k) :=
      Nat.mul_le_mul_right _ (by omega)
    omega
  · have hlt : j < i := by omega
    have hne : j + 1 ≠ k := by omega
    rw [if_neg hne] at hmj
    have hmul : (j + 1) * (n / k) ≤ i * (n / k) :=
      Nat.mul_le_mul_right _ (by omega)
    omega

lemma foldIdx_cover {n k : Nat} (h2 : 2 ≤ k) (hk : k ≤ n) (m : Nat) :
    m < n ↔ ∃ i, i < k ∧ m ∈ foldIdx n k i := by
  have hq : 1 ≤ n / k := (Nat.one_le_div_iff (by omega)).mpr hk
  constructor
  · intro hm
    by_cases hbig : m / (n / k) < k - 1
    · refine ⟨m / (n / k), by omega, ?_⟩
      rw [mem_foldIdx hk (by omega), if_neg (by omega)]
      refine ⟨Nat.div_mul_le_self _ _, ?_⟩
      exact (Nat.div_lt_iff_lt_mul (by omega)).mp (Nat.lt_succ_self _)
    · refine ⟨k - 1, by omega, ?_⟩
      rw [mem_foldIdx hk (by omega), if_pos (by omega)]
      refine ⟨?_, hm⟩
      calc (k - 1) * (n / k) ≤ m / (n / k) * (n / k) :=
            Nat.mul_le_mul_right _ (by omega)
        _ ≤ m := Nat.div_mul_le_self _ _
  · rintro ⟨i, hi, hmem⟩
    rw [mem_foldIdx hk hi] at hmem
    by_cases h : i + 1 = k
    · rw [if_pos h] at hmem
      exact hmem.2
    · rw [if_neg h] at hmem
      have hmul : (i + 1) * (n / k) ≤ k * (n / k) :=
        Nat.mul_le_mul_right _ (by omega)
      have h3 : k * (n / k) ≤ n := by
        rw [mul_comm]
        exact Nat.div_mul_le_self n k
      omega

/-! ## Theorems -/

/-- C1: Pearson correlation is symmetric in its two fields for every record
collection, and the self-correlation of a field whose summary has positive
standard deviation is exactly 1. -/
theorem correlation_props (records : List Record) :
    (∀ fa fb, calculateCorrelation records fa fb
              = calculateCorrelation records fb fa) ∧
    (∀ f, 0 < (calculateStatistics records f).stdDev →
      calculateCorrelation records f f = some 1) := by
  constructor
  · intro fa fb
    unfold calculateCorrelation
    rw [pairedVals_swap records fa fb, List.length_map,
        List.map_map, List.map_map]
    have h1 : (Prod.fst ∘ Prod.swap : ℚ × ℚ → ℚ) = Prod.snd := rfl
    have h2 : (Prod.snd ∘ Prod.swap : ℚ × ℚ → ℚ) = Prod.fst := rfl
    rw [h1, h2, listCov_map_swap]
    by_cases hl : (pairedVals records fa fb).length < 2
    · simp [hl]
    · by_cases hvx : listVariance ((pairedVals records fa fb).map Prod.fst) = 0
      · simp [hl, hvx]
      · by_cases hvy : listVariance ((pairedVals records fa fb).map Prod.snd) = 0
        · simp [hl, hvx, hvy]
        · simp [hl, hvx, hvy, mul_comm]
  · intro f hsd
    have hxe : ¬(definedNums records f).isEmpty := by
      intro hemp
      rw [calculateStatistics, if_pos hemp] at hsd
      simp [StatisticsSummary.stdDev] at hsd
    have hvpos : 0 < listVariance (definedNums records f) := by
      rw [calculateStatistics, if_neg hxe] at hsd
      simp only [StatisticsSummary.stdDev] at hsd
      have := Real.sqrt_pos.mp hsd
      exact_mod_cast this
    have hlen : ¬((definedNums records f).length < 2) := by
      intro hshort
      exact absurd (listVariance_eq_zero_of_short _ hshort) (ne_of_gt hvpos)
    unfold calculateCorrelation
    rw [pairedVals_self, List.map_map, List.map_map]
    have h1 : (Prod.fst ∘ fun x : ℚ => (x, x)) = id := rfl
    have h2 : (Prod.snd ∘ fun x : ℚ => (x, x)) = id := rfl
    rw [h1, h2, List.map_id, listCov_diag, List.length_map]
    rw [if_neg hlen, if_neg (by push_neg; exact ⟨hvpos.ne', hvpos.ne'⟩)]
    congr 1
    rw [Real.mul_self_sqrt (by exact_mod_cast listVariance_nonneg _)]
    exact div_self (by exact_mod_cast hvpos.ne')

/-- C1 witness: on the three-record spec example, correlation of `revenue` and
`customers` is symmetric, and the self-correlation of `revenue` (whose standard
deviation is positive) is 1. -/
theorem correlation_props_witness :
    calculateCorrelation exRecs "revenue" "customers"
      = calculateCorrelation exRecs "customers" "revenue" ∧
    calculateCorrelation exRecs "revenue" "revenue" = some 1 := by
  refine ⟨(correlation_props exRecs).1 "revenue" "customers",
          (correlation_props exRecs).2 "revenue" ?_⟩
  have hd : definedNums exRecs "revenue" = [100, 200] := rfl
  have hne : ¬(definedNums exRecs "revenue").isEmpty := by rw [hd]; decide
  rw [calculateStatistics, if_neg hne]
  simp only [StatisticsSummary.stdDev]
  rw [hd]
  have hv : listVariance [(100 : ℚ), 200] = 2500 := by
    norm_num [listVariance, listMean]
  rw [hv]
  exact Real.sqrt_pos.mpr (by norm_num)

/-- C2: for every record collection and field, when the statistics summary has
a positive count its higher moments are defined and satisfy
`min ≤ median ≤ max` with a nonnegative standard deviation; and when no record
has a defined numeric value for the field the result is the count-0 summary
with undefined higher moments rather than a failure. -/
theorem summarize_invariants (records : List Record) (f : String) :
    (0 < (calculateStatistics records f).count →
      ∃ c, (calculateStatistics records f).core = some c ∧
        c.min ≤ c.median ∧ c.median ≤ c.max ∧
        0 ≤ (calculateStatistics records f).stdDev) ∧
    (definedNums records f = [] →
      (calculateStatistics records f).count = 0 ∧
      (calculateStatistics records f).core = none) := by
  constructor
  · intro hc
    by_cases hne : (definedNums records f).isEmpty
    · rw [calculateStatistics, if_pos hne] at hc
      exact absurd hc (by simp)
    · have hx : definedNums records f ≠ [] := by
        simpa [List.isEmpty_iff] using hne
      have hmed := listMin_le_listMedian (definedNums records f) hx
      refine ⟨⟨(definedNums records f).sum, listMean (definedNums records f),
               listMedian (definedNums records f), listMin (definedNums records f),
               listMax (definedNums records f), listVariance (definedNums records f)⟩,
              ?_, hmed.1, hmed.2, stdDev_nonneg _⟩
      rw [calculateStatistics, if_neg hne]
  · intro hx
    rw [calculateStatistics, if_pos (by simp [hx])]
    exact ⟨rfl, rfl⟩

/-- C2 witness: the three-record spec example has count 2 for `revenue` and its
summary satisfies the invariants; for a field defined nowhere the summary is
the empty one. -/
theorem summarize_invariants_witness :
    (∃ c, (calculateStatistics exRecs "revenue").core = some c ∧
      c.min ≤ c.median ∧ c.median ≤ c.max ∧
      0 ≤ (calculateStatistics exRecs "revenue").stdDev) ∧
    (calculateStatistics exRecs "missing").count = 0 ∧
    (calculateStatistics exRecs "missing").core = none :=
  ⟨(summarize_invariants exRecs "revenue").1 (by decide),
   (summarize_invariants exRecs "missing").2 (by decide)⟩

/-- C7: `detectOutliers` flags exactly the records whose defined value for the
field lies outside the fences `[Q1 - 1.5*IQR, Q3 + 1.5*IQR]` computed over the
defined values; records with the field missing are never flagged; and on a
field with zero variance the result is empty. -/
theorem detectOutliers_contract (records : List Record) (f : String) :
    (∀ r, r ∈ detectOutliers records f ↔
        r ∈ records ∧ ∃ v, numValue r f = some v ∧
          (v < lowFence (definedNums records f)
           ∨ highFence (definedNums records f) < v)) ∧
    (∀ r, numValue r f = none → r ∉ detectOutliers records f) ∧
    (listVariance (definedNums records f) = 0 → detectOutliers records f = []) := by
  have hmain : ∀ r, r ∈ detectOutliers records f ↔
      r ∈ records ∧ ∃ v, numValue r f = some v ∧
        (v < lowFence (definedNums records f)
         ∨ highFence (definedNums records f) < v) := by
    intro r
    by_cases hxe : (definedNums records f).isEmpty
    · rw [detectOutliers, if_pos hxe]
      simp only [List.not_mem_nil, false_iff]
      rintro ⟨hr, v, hv, -⟩
      have hvm := mem_definedNums hr hv
      rw [List.isEmpty_iff] at hxe
      rw [hxe] at hvm
      exact absurd hvm (List.not_mem_nil v)
    · rw [detectOutliers, if_neg hxe, List.mem_filter]
      constructor
      · rintro ⟨hr, hp⟩
        cases hv : numValue r f with
        | none => rw [hv] at hp; exact absurd hp (by simp)
        | some v =>
          rw [hv] at hp
          exact ⟨hr, v, rfl, of_decide_eq_true hp⟩
      · rintro ⟨hr, v, hv, hout⟩
        refine ⟨hr, ?_⟩
        rw [hv]
        exact decide_eq_true hout
  refine ⟨hmain, ?_, ?_⟩
  · intro r hnone hmem
    obtain ⟨-, v, hv, -⟩ := (hmain r).mp hmem
    rw [hnone] at hv
    exact Option.noConfusion hv
  · intro hvar
    by_cases hxe : (definedNums records f).isEmpty
    · rw [detectOutliers, if_pos hxe]
    · rw [detectOutliers, if_neg hxe]
      have hnn : (definedNums records f).length ≠ 0 := by
        rw [Ne, List.length_eq_zero, ← List.isEmpty_iff]
        exact hxe
      have hm := listVariance_zero_all_eq hvar
      have hq1 : q1Of (definedNums records f) = listMean (definedNums records f) :=
        getD_sortVals_of_all_eq hm (Nat.div_lt_self (Nat.pos_of_ne_zero hnn) (by norm_num))
      have hq3 : q3Of (definedNums records f) = listMean (definedNums records f) :=
        getD_sortVals_of_all_eq hm
          ((Nat.div_lt_iff_lt_mul four_pos).mpr (by omega))
      have hlow : lowFence (definedNums records f) = listMean (definedNums records f) := by
        rw [lowFence, hq1, hq3]; ring
      have hhigh : highFence (definedNums records f) = listMean (definedNums records f) := by
        rw [highFence, hq1, hq3]; ring
      apply List.filter_eq_nil.mpr
      intro r hr
      cases hv : numValue r f with
      | none => simp
      | some v =>
        have hvv : v = listMean (definedNums records f) :=
          hm v (mem_definedNums hr hv)
        rw [hlow, hhigh, hvv]
        simp

/-- C7 witness: a zero-variance field yields no outliers, and a record with
the field missing is not flagged. -/
theorem detectOutliers_contract_witness :
    detectOutliers constRecs "revenue" = [] ∧
    [("revenue", Value.null), ("customers", Value.num 30)]
      ∉ detectOutliers exRecs "revenue" := by
  constructor
  · apply (detectOutliers_contract constRecs "revenue").2.2
    have hd : definedNums constRecs "revenue" = [5, 5] := rfl
    rw [hd]
    norm_num [listVariance, listMean]
  · exact (detectOutliers_contract exRecs "revenue").2.1 _ rfl

/-- C3: `groupBy` with the sum reducer succeeds and returns the group
aggregates sorted descending by aggregated value (so the head is the largest);
a record whose group field is missing belongs to no group; every returned
group key is the defined key of some record; and the aggregate values sum to
the sum of the value field over the records with a defined group key. -/
theorem groupBy_contract (records : List Record) (gf vf : String) :
    ∃ gs, groupBy records gf vf "sum" = Except.ok gs ∧
      List.Sorted aggGE gs ∧
      (∀ r ∈ records, keyOf r gf = none → ∀ k, r ∉ groupRecords records gf k) ∧
      (∀ p ∈ gs, ∃ r ∈ records, keyOf r gf = some p.1) ∧
      (gs.map Prod.snd).sum
        = ((records.filter (fun r => (keyOf r gf).isSome)).filterMap
            (fun r => numValue r vf)).sum := by
  refine ⟨((groupKeys records gf).map (fun k =>
      (k, (applyReducer "sum" (definedNums (groupRecords records gf k) vf)).getD 0))).insertionSort
        aggGE,
    ?_, List.sorted_insertionSort _ _, ?_, ?_, ?_⟩
  · rw [groupBy, if_neg (by simp [applyReducer])]
  · intro r _ hnone k hmem
    have hsk := (List.mem_filter.mp hmem).2
    rw [hnone] at hsk
    simp at hsk
  · intro p hp
    have hpbase := (List.perm_insertionSort aggGE _).subset hp
    obtain ⟨k, hk, rfl⟩ := List.mem_map.mp hpbase
    obtain ⟨r, hr, hkr⟩ := List.mem_filterMap.mp (List.mem_dedup.mp hk)
    exact ⟨r, hr, hkr⟩
  · have hperm := (List.perm_insertionSort aggGE
      ((groupKeys records gf).map (fun k =>
        (k, (applyReducer "sum" (definedNums (groupRecords records gf k) vf)).getD 0)))).map
      Prod.snd
    rw [hperm.sum_eq, List.map_map]
    have hcomp : (Prod.snd ∘ fun k =>
        (k, (applyReducer "sum" (definedNums (groupRecords records gf k) vf)).getD 0))
        = fun k =>
          (applyReducer "sum" (definedNums (groupRecords records gf k) vf)).getD 0 := rfl
    rw [hcomp]
    have hagg : ∀ k ∈ groupKeys records gf,
        (applyReducer "sum" (definedNums (groupRecords records gf k) vf)).getD 0
          = (((kvPairs records gf vf).filter
              (fun p => decide (p.1 = k))).map Prod.snd).sum := by
      intro k _
      have hred : applyReducer "sum" (definedNums (groupRecords records gf k) vf)
          = some (definedNums (groupRecords records gf k) vf).sum := by
        simp [applyReducer]
      rw [hred, Option.getD_some, definedNums_groupRecords]
    rw [List.map_congr_left hagg]
    have hnd : (groupKeys records gf).Nodup := by
      rw [groupKeys]
      exact List.nodup_dedup _
    rw [sum_over_keys _ _ hnd ?_, kvPairs_snd]
    intro p hp
    obtain ⟨r, hr, hmatch⟩ := List.mem_filterMap.mp hp
    cases hk : keyOf r gf with
    | none => rw [hk] at hmatch; exact absurd hmatch (by simp)
    | some k2 =>
      cases hv : numValue r vf with
      | none => rw [hk, hv] at hmatch; exact absurd hmatch (by simp)
      | some v =>
        rw [hk, hv] at hmatch
        have hpk : p = (k2, v) := by
          cases hmatch
          rfl
        rw [hpk]
        exact List.mem_dedup.mpr (List.mem_filterMap.mpr ⟨r, hr, hk⟩)

/-- C3 witness: in the concrete grouped collection, the record lacking the
`category` field belongs to no group (here checked for group "A"). -/
theorem groupBy_contract_witness :
    [("revenue", Value.num 99)] ∉ groupRecords grpRecs "category" (Value.str "A") := by
  obtain ⟨gs, -, -, hexcl, -, -⟩ := groupBy_contract grpRecs "category" "revenue"
  exact hexcl [("revenue", Value.num 99)] (by simp [grpRecs]) rfl (Value.str "A")

/-- C4: `crossValidate` fails when `k < 2` or `k` exceeds the row count;
otherwise it returns exactly `k` fold scores, each fold score is the R² of a
fresh model built by the factory on the remaining folds and scored on its
held-out fold, and the held-out folds are pairwise disjoint with union the
whole row range. -/
theorem crossValidate_contract (fit : List (List ℚ) → List ℚ → (List ℚ → ℚ))
    (X : List (List ℚ)) (y : List ℚ) (k : Nat) :
    (k < 2 ∨ X.length < k →
      ∃ e, crossValidate fit X y k = Except.error e) ∧
    (2 ≤ k → k ≤ X.length →
      ∃ r, crossValidate fit X y k = Except.ok r ∧
        r.perFold.length = k ∧
        (∀ i, i < k → r.perFold.getD i 0 = cvFoldScore fit X y k i) ∧
        (∀ i j, i < k → j < k → i ≠ j →
          ∀ m, m ∈ foldIdx X.length k i → m ∉ foldIdx X.length k j) ∧
        (∀ m, m < X.length ↔ ∃ i, i < k ∧ m ∈ foldIdx X.length k i)) := by
  constructor
  · intro h
    by_cases h2 : k < 2
    · exact ⟨_, by rw [crossValidate, if_pos h2]⟩
    · have hn : X.length < k := by omega
      exact ⟨_, by rw [crossValidate, if_neg h2, if_pos hn]⟩
  · intro h2 hk
    refine ⟨⟨(List.range k).map (fun i => cvFoldScore fit X y k i),
             listMean ((List.range k).map (fun i => cvFoldScore fit X y k i)),
             listVariance ((List.range k).map (fun i => cvFoldScore fit X y k i))⟩,
      ?_, ?_, ?_,
      fun i j hi hj hij m => foldIdx_disjoint hk hi hj hij,
      fun m => foldIdx_cover h2 hk m⟩
    · rw [crossValidate, if_neg (by omega), if_neg (by omega)]
    · simp
    · intro i hi
      have hlen : i < ((List.range k).map (fun i => cvFoldScore fit X y k i)).length := by
        simpa using hi
      rw [List.getD_eq_getElem _ _ hlen, List.getElem_map, List.getElem_range]

/-- C4 witness: with `k = 5` on 100 rows, cross-validation returns exactly 5
fold scores, and `k = 1` is rejected. -/
theorem crossValidate_contract_witness :
    (∃ e, crossValidate (fun _ _ => fun _ => (0 : ℚ))
        (List.replicate 100 [(0 : ℚ)]) (List.replicate 100 (0 : ℚ)) 1
        = Except.error e) ∧
    (∃ r, crossValidate (fun _ _ => fun _ => (0 : ℚ))
        (List.replicate 100 [(0 : ℚ)]) (List.replicate 100 (0 : ℚ)) 5
        = Except.ok r ∧ r.perFold.length = 5) := by
  constructor
  · exact (crossValidate_contract (fun _ _ => fun _ => (0 : ℚ))
      (List.replicate 100 [(0 : ℚ)]) (List.replicate 100 (0 : ℚ)) 1).1
      (Or.inl (by norm_num))
  · obtain ⟨r, hok, hlen, -, -, -⟩ :=
      (crossValidate_contract (fun _ _ => fun _ => (0 : ℚ))
        (List.replicate 100 [(0 : ℚ)]) (List.replicate 100 (0 : ℚ)) 5).2
        (by norm_num) (by simp)
    exact ⟨r, hok, hlen⟩

/-- C9: fitting linear regression on the dataset generated exactly from
`y = 2*x1 + 3*x2 + 1` recovers coefficients within `1/1000` of `[2, 3]` and an
intercept within `1/1000` of `1` (here exactly, since arithmetic is exact);
`predict` returns `intercept + X · coefficients` row-wise; and
`evaluateRegression` on the training predictions gives R² within `1/1000`
of 1. -/
theorem linearRegression_recovers :
    (∃ m, linearFit linX linY = Except.ok m ∧
      |m.intercept - 1| ≤ 1 / 1000 ∧
      (∃ c1 c2, m.coefficients = [c1, c2] ∧
        |c1 - 2| ≤ 1 / 1000 ∧ |c2 - 3| ≤ 1 / 1000) ∧
      (∃ e, evaluateRegression linY (m.predict linX) = Except.ok e ∧
        |e.r2 - 1| ≤ 1 / 1000)) ∧
    (∀ (mm : LinModel) (Xs : List (List ℚ)),
      mm.predict Xs = Xs.map (fun row => mm.intercept + dot row mm.coefficients)) := by
  constructor
  · refine ⟨⟨1, [2, 3]⟩, by with_unfolding_all rfl, by norm_num,
      ⟨2, 3, rfl, by norm_num, by norm_num⟩,
      ⟨⟨1, 0, 0⟩, by with_unfolding_all rfl, by norm_num⟩⟩
  · intro mm Xs
    rfl

/-- C5 counterexample: on the unsupported model kind `"kmeans"`, the switch of
`trainModel` (`App.jsx` lines 83-92) silently constructs the default
`LinearRegression` model, while the spec's error-handling design demands an
`InvalidParameter` failure: the claim is false on the code. -/
theorem selectModel_silently_defaults :
    selectModel "kmeans" = ModelChoice.linear ∧
    selectModelSpec "kmeans" =
      Except.error "InvalidParameter: unsupported model kind" := by
  constructor <;> rfl

/-- C5 (amended): selecting an unsupported model kind silently substitutes the
default `LinearRegression` model (the `default:` branch of the switch in
`App.jsx`); no error is raised. -/
theorem selectModel_default_is_linear (s : String)
    (h1 : s ≠ "linear") (h2 : s ≠ "tree") :
    selectModel s = ModelChoice.linear := by
  simp [selectModel, h1, h2]

/-- C5 witness: the amended claim at the concrete unsupported kind `"forest"`. -/
theorem selectModel_default_is_linear_witness :
    selectModel "forest" = ModelChoice.linear :=
  selectModel_default_is_linear "forest" (by decide) (by decide)

/-- C10: if any step of the training pipeline of `trainModel` throws, the
error is caught and only logged to the console: the previously stored model
results are unchanged, no other user-visible state field is touched, and in
every case (success or failure) the `isTraining` flag ends up reset to
`false`. -/
theorem trainModel_error_handling {ρ : Type} (steps : Except String ρ)
    (s : AppState ρ) :
    (trainModel steps s).isTraining = false ∧
    ∀ e, steps = Except.error e →
      (trainModel steps s).modelResults = s.modelResults ∧
      (trainModel steps s).activeTab = s.activeTab ∧
      (trainModel steps s).selectedModel = s.selectedModel ∧
      (trainModel steps s).consoleLog =
        s.consoleLog ++ ["Model training failed: " ++ e] := by
  cases steps <;> simp [trainModel]

/-- C10 witness: a concrete failing pipeline leaves the stored results and the
rest of the state alone and resets the training flag. -/
theorem trainModel_error_handling_witness :
    (trainModel (Except.error "singular matrix")
        (⟨"modeling", "linear", some 7, false, []⟩ : AppState Nat)).modelResults
      = some 7 ∧
    (trainModel (Except.error "singular matrix")
        (⟨"modeling", "linear", some 7, false, []⟩ : AppState Nat)).isTraining
      = false :=
  ⟨((trainModel_error_handling (Except.error "singular matrix")
      (⟨"modeling", "linear", some 7, false, []⟩ : AppState Nat)).2
      "singular matrix" rfl).1,
   (trainModel_error_handling (Except.error "singular matrix")
      (⟨"modeling", "linear", some 7, false, []⟩ : AppState Nat)).1⟩

/-- C6: `evaluateRegression` fails with a "length mismatch" error whenever the
two vectors differ in length; on equal lengths it returns
`r2 = 1 - SS_res/SS_tot` when `SS_tot ≠ 0` and the edge-case value 1 when
`SS_tot = 0` (never dividing by zero), `rmse = sqrt(mean((actual-predicted)^2))`
and `mae = mean |actual-predicted|`. -/
theorem evaluateRegression_contract (actual predicted : List ℚ) :
    (actual.length ≠ predicted.length →
      evaluateRegression actual predicted = Except.error "length mismatch") ∧
    (actual.length = predicted.length →
      ∃ e, evaluateRegression actual predicted = Except.ok e ∧
        (ssTot actual ≠ 0 →
          e.r2 = 1 - ssRes actual predicted / ssTot actual) ∧
        (ssTot actual = 0 → e.r2 = 1) ∧
        e.rmse = Real.sqrt
          ((((actual.zipWith (fun a p => (a - p) ^ 2) predicted)).sum
              / actual.length : ℚ) : ℝ) ∧
        e.mae = ((actual.zipWith (fun a p => |a - p|) predicted)).sum
              / actual.length) := by
  constructor
  · intro h
    simp [evaluateRegression, h]
  · intro h
    refine ⟨⟨r2Score actual predicted,
             ssRes actual predicted / (actual.length : ℚ),
             ((actual.zipWith (fun a p => |a - p|) predicted)).sum
               / (actual.length : ℚ)⟩,
           by simp [evaluateRegression, h], ?_, ?_, rfl, rfl⟩
    · intro ht
      simp [r2Score, ht]
    · intro ht
      simp [r2Score, ht]

/-- C6 witness: a concrete length mismatch errors, and a concrete matched pair
gets the stated R² formula. -/
theorem evaluateRegression_contract_witness :
    evaluateRegression [1, 2] [1] = Except.error "length mismatch" ∧
    ∃ e, evaluateRegression [(1 : ℚ), 2] [2, 1] = Except.ok e ∧
      (ssTot [(1 : ℚ), 2] ≠ 0 →
        e.r2 = 1 - ssRes [(1 : ℚ), 2] [2, 1] / ssTot [(1 : ℚ), 2]) := by
  refine ⟨(evaluateRegression_contract [1, 2] [1]).1 (by decide), ?_⟩
  obtain ⟨e, he, hr, -⟩ := (evaluateRegression_contract [(1 : ℚ), 2] [2, 1]).2 rfl
  exact ⟨e, he, hr⟩

/-- C8: the missing percentage of `calculateDataQuality` is
missing cells / (record count × tracked field count) × 100; on the
three-record example with 2 tracked fields it reflects exactly 1 missing cell
out of 6 (= 100/6 percent); and a collection with no missing cells and no
duplicate records scores missing 0, duplicates 0 and quality 100. -/
theorem dataQuality_contract :
    (∀ (records : List Record) (fields : List String),
      (calculateDataQuality records fields).missingPercentage
        = (missingCount records fields : ℚ)
            / ((records.length : ℚ) * fields.length) * 100) ∧
    (calculateDataQuality exRecs ["revenue", "customers"]).missingPercentage
        = 100 / 6 ∧
    (∀ (records : List Record) (fields : List String),
      missingCount records fields = 0 → duplicateCount [] records = 0 →
        (calculateDataQuality records fields).missingPercentage = 0 ∧
        (calculateDataQuality records fields).duplicatePercentage = 0 ∧
        (calculateDataQuality records fields).qualityScore = 100) := by
  refine ⟨fun records fields => rfl, ?_, fun records fields hm hd => ?_⟩
  · have h1 : missingCount exRecs ["revenue", "customers"] = 1 := by decide
    have h2 : (calculateDataQuality exRecs ["revenue", "customers"]).missingPercentage
        = (missingCount exRecs ["revenue", "customers"] : ℚ)
            / ((exRecs.length : ℚ) * (2 : Nat)) * 100 := rfl
    have h3 : exRecs.length = 3 := rfl
    rw [h2, h1, h3]
    norm_num
  · simp [calculateDataQuality, hm, hd]

/-- C8 witness: the clean two-record collection has no missing cells, no
duplicates, and quality score 100. -/
theorem dataQuality_contract_witness :
    (calculateDataQuality cleanRecs ["revenue", "customers"]).missingPercentage
      = 0 ∧
    (calculateDataQuality cleanRecs ["revenue", "customers"]).duplicatePercentage
      = 0 ∧
    (calculateDataQuality cleanRecs ["revenue", "customers"]).qualityScore
      = 100 :=
  dataQuality_contract.2.2 cleanRecs ["revenue", "customers"]
    (by decide) (by decide)

end Dashboard
